import Mathlib

/-!
Shallow embedding of the degenbot arbitrage engine and helpers:

* `degenbot/arbitrage/uniswap_lp_cycle.py` — the `UniswapLpCycle` class:
  pool viability (`_pool_is_viable`), the pre-calculation gate
  (`_pre_calculation_check`), the optimizer's profit function
  (`arb_profit` inside `_calculate`), the newest-state-block computation
  at the end of `_calculate`, the sparse-map refusal in
  `calculate_with_pool`, and `generate_payloads`.
* `degenbot/uniswap/v3_functions.py` — `decode_v3_path`.
* `degenbot/balancer/pools.py` — `BalancerV2Pool.calculate_tokens_out_from_tokens_in`.

Machine integers are modelled as `Nat`/`Int` (Python integers are unbounded,
so no wrap-around modelling is needed), Python `Fraction` values as `ℚ`,
and raised exceptions as `Except` errors.  `get_sqrt_ratio_at_tick` lives in
`degenbot/uniswap/v3_libraries/tick_math.py`, outside the files embedded
here, so every definition that needs it takes it as an explicit function
argument `ratioAt : ℤ → ℕ`.
-/

namespace Degenbot

/-- Static (construction-time) data of a constant-product (V2-style) pool:
the two direction-dependent fees, each stored as a `Fraction`
(numerator/denominator pair, as in `pool.fee_token0` / `pool.fee_token1`). -/
structure V2PoolParams where
  feeToken0Num : ℕ
  feeToken0Den : ℕ
  feeToken1Num : ℕ
  feeToken1Den : ℕ
deriving DecidableEq

/-- Snapshot of a constant-product pool state (`UniswapV2PoolState` /
`AerodromeV2PoolState`): raw reserves plus the optional block number. -/
structure V2PoolState where
  reservesToken0 : ℕ
  reservesToken1 : ℕ
  block : Option ℕ
deriving DecidableEq

/-- Static data of a concentrated-liquidity (V3-style) pool: the fee in
parts-per-million (`pool.fee`) and the `sparse_liquidity_map` flag. -/
structure V3PoolParams where
  fee : ℕ
  sparseLiquidityMap : Bool
deriving DecidableEq

/-- Snapshot of a concentrated-liquidity pool state (`UniswapV3PoolState`):
the Q64.96 square-root price, the keys of the `tick_data` mapping, and the
optional block number. -/
structure V3PoolState where
  sqrtPriceX96 : ℕ
  tickKeys : List ℤ
  block : Option ℕ
deriving DecidableEq

/-- A pool in the path, tagged by family (the closed set of classes matched
by the `match pool, state` statements in `uniswap_lp_cycle.py`). -/
inductive PoolStatic where
  | v2 (params : V2PoolParams)
  | v3 (params : V3PoolParams)
deriving DecidableEq

/-- A pool-state snapshot, tagged by family. -/
inductive PoolState where
  | v2 (s : V2PoolState)
  | v3 (s : V3PoolState)
deriving DecidableEq

/-- Block number carried by a state snapshot (`state.block`). -/
def PoolState.block : PoolState → Option ℕ
  | PoolState.v2 s => s.block
  | PoolState.v3 s => s.block

/-- Python `min` over the keys of a nonempty `tick_data` mapping (`[]` is a
placeholder for the unreachable empty case). -/
def listMinZ : List ℤ → ℤ
  | [] => 0
  | t :: rest => rest.foldl min t

/-- Python `max` over the keys of a nonempty `tick_data` mapping. -/
def listMaxZ : List ℤ → ℤ
  | [] => 0
  | t :: rest => rest.foldl max t

/-- Exceptions escaping `_pool_is_viable`: the `ValueError` raised for a
zero price with liquidity positions, and the `DegenbotValueError` raised
when the pool/state pair matches no known family. -/
inductive ViabilityError where
  | invariantViolation
  | typeMismatch
deriving DecidableEq

/-- Embedding of `UniswapLpCycle._pool_is_viable`.  `ratioAt` stands for
`get_sqrt_ratio_at_tick`. -/
def poolIsViable (ratioAt : ℤ → ℕ) (pool : PoolStatic) (state : PoolState)
    (zeroForOne : Bool) : Except ViabilityError Bool :=
  match pool, state with
  | PoolStatic.v2 _, PoolState.v2 s =>
    if s.reservesToken0 = 0 ∨ s.reservesToken1 = 0 then Except.ok false
    else Except.ok (if zeroForOne then decide (1 < s.reservesToken1)
                    else decide (1 < s.reservesToken0))
  | PoolStatic.v3 p, PoolState.v3 s =>
    if p.sparseLiquidityMap then Except.ok true
    else if s.tickKeys = [] then Except.ok false
    else if s.sqrtPriceX96 = 0 then
      if s.tickKeys ≠ [] then Except.error ViabilityError.invariantViolation
      else Except.ok false
    else if zeroForOne then
      Except.ok (decide (ratioAt (listMinZ s.tickKeys) < s.sqrtPriceX96))
    else
      Except.ok (decide (s.sqrtPriceX96 < ratioAt (listMaxZ s.tickKeys)))
  | _, _ => Except.error ViabilityError.typeMismatch

/-- One hop of the cycle: a pool (identified by address) together with its
current cached state and the swap vector's direction flag computed at
construction (`self._swap_vectors[i].zero_for_one`). -/
structure Hop where
  address : ℕ
  pool : PoolStatic
  state : PoolState
  zeroForOne : Bool
deriving DecidableEq

/-- Observable state of a `UniswapLpCycle` object: the ordered hops
(pools, their cached states and swap vectors), the cached per-pool
viability flags (`self._pool_viability`, an address-keyed mapping), the
input-token address and the maximum input. -/
structure Cycle where
  hops : List Hop
  viability : List (ℕ × Bool)
  inputTokenAddress : ℕ
  maxInput : ℕ
deriving DecidableEq

/-- Address-keyed mapping of pool-state overrides (`state_overrides`). -/
def Overrides : Type := List (ℕ × PoolState)

/-- Lookup in an address-keyed mapping (first matching entry). -/
def assocLookup {α : Type} (l : List (ℕ × α)) (a : ℕ) : Option α :=
  (l.find? (fun p => p.1 == a)).map Prod.snd

/-- The swap vector retrieved as
`self._swap_vectors[self.swap_pools.index(pool)]`: `list.index` returns the
first position whose element equals `pool`, modelled here by the first hop
carrying the same address.  `fallback` is never used when the address comes
from a member hop. -/
def vectorForAddress (hops : List Hop) (fallback : Bool) (a : ℕ) : Bool :=
  ((hops.find? (fun h => h.address == a)).map (fun h => h.zeroForOne)).getD fallback

/-- Python's `state_overrides.get(pool.address, pool.state)`. -/
def resolveState (ov : Overrides) (h : Hop) : PoolState :=
  (assocLookup ov h.address).getD h.state

/-- Exceptions escaping `_pre_calculation_check`:  `ArbitrageError` for a
non-viable pool, `KeyError` for a missing viability-cache entry, the two
`_pool_is_viable` faults, `ZeroDivisionError` from `Fraction(n, 0)`, and
`RateOfExchangeBelowMinimum` carrying the computed rate. -/
inductive PreCalcError where
  | arbitrageError
  | keyError
  | typeMismatch
  | invariantViolation
  | zeroDivision
  | rateOfExchangeBelowMinimum (rate : ℚ)
deriving DecidableEq

/-- The first disjunct of the viability test in `_pre_calculation_check`:
`pool.address in state_overrides and not self._pool_is_viable(...)`,
with exceptions from `_pool_is_viable` propagated. -/
def scanHopCond (ratioAt : ℤ → ℕ) (hops : List Hop) (ov : Overrides) (h : Hop) :
    Except PreCalcError Bool :=
  match assocLookup ov h.address with
  | none => Except.ok false
  | some st =>
    match poolIsViable ratioAt h.pool st (vectorForAddress hops h.zeroForOne h.address) with
    | Except.error ViabilityError.invariantViolation =>
      Except.error PreCalcError.invariantViolation
    | Except.error ViabilityError.typeMismatch => Except.error PreCalcError.typeMismatch
    | Except.ok v => Except.ok (!v)

/-- The viability loop of `_pre_calculation_check`, threaded through the
cycle state explicitly: the source performs no assignment to `self`, so
each step passes `c` on unchanged.  Raising is modelled by returning the
error together with the state at the moment of the raise. -/
def viabilityScanS (ratioAt : ℤ → ℕ) (c : Cycle) (ov : Overrides) :
    List Hop → Except PreCalcError Unit × Cycle
  | [] => (Except.ok (), c)
  | h :: rest =>
    match scanHopCond ratioAt c.hops ov h with
    | Except.error e => (Except.error e, c)
    | Except.ok true => (Except.error PreCalcError.arbitrageError, c)
    | Except.ok false =>
      match assocLookup c.viability h.address with
      | none => (Except.error PreCalcError.keyError, c)
      | some cached =>
        if cached then viabilityScanS ratioAt c ov rest
        else (Except.error PreCalcError.arbitrageError, c)

/-- The literal `6277101735386680763835789423207666416102355444464034512896`
appearing in `_pre_calculation_check`, which is `2 ^ 192`. -/
def q192 : ℤ := 6277101735386680763835789423207666416102355444464034512896

/-- One iteration of the exchange-rate loop of `_pre_calculation_check`:
the numerator and denominator appended for this hop at the resolved state,
or `DegenbotValueError` when the pool/state kinds do not match. -/
def hopRateParts (h : Hop) (st : PoolState) : Except PreCalcError (ℤ × ℤ) :=
  match h.pool, st with
  | PoolStatic.v2 p, PoolState.v2 s =>
    if h.zeroForOne then
      Except.ok ((s.reservesToken1 : ℤ) * ((p.feeToken0Den : ℤ) - (p.feeToken0Num : ℤ)),
                 (s.reservesToken0 : ℤ) * (p.feeToken0Den : ℤ))
    else
      Except.ok ((s.reservesToken0 : ℤ) * ((p.feeToken1Den : ℤ) - (p.feeToken1Num : ℤ)),
                 (s.reservesToken1 : ℤ) * (p.feeToken1Den : ℤ))
  | PoolStatic.v3 p, PoolState.v3 s =>
    if h.zeroForOne then
      Except.ok ((s.sqrtPriceX96 : ℤ) * (s.sqrtPriceX96 : ℤ) * ((1000000 : ℤ) - (p.fee : ℤ)),
                 q192 * 1000000)
    else
      Except.ok (q192 * ((1000000 : ℤ) - (p.fee : ℤ)),
                 (s.sqrtPriceX96 : ℤ) * (s.sqrtPriceX96 : ℤ) * 1000000)
  | _, _ => Except.error PreCalcError.typeMismatch

/-- The exchange-rate loop: the ordered list of per-hop
(numerator, denominator) pairs appended to `exchange_rate_numerators` /
`exchange_rate_denominators`. -/
def ratePartsAux (ov : Overrides) : List Hop → Except PreCalcError (List (ℤ × ℤ))
  | [] => Except.ok []
  | h :: rest =>
    match hopRateParts h (resolveState ov h) with
    | Except.error e => Except.error e
    | Except.ok nd =>
      match ratePartsAux ov rest with
      | Except.error e => Except.error e
      | Except.ok l => Except.ok (nd :: l)

/-- Embedding of `UniswapLpCycle._pre_calculation_check`, state-threaded:
the result is the outcome (normal return or raised exception) paired with
the cycle state after the call.  `math.prod` of the two lists and
`Fraction(num, den)` are modelled exactly over `ℤ`/`ℚ`. -/
def preCalculationCheckS (ratioAt : ℤ → ℕ) (c : Cycle) (minRate : ℚ)
    (ov : Overrides) : Except PreCalcError Unit × Cycle :=
  match viabilityScanS ratioAt c ov c.hops with
  | (Except.error e, c1) => (Except.error e, c1)
  | (Except.ok _, c1) =>
    match ratePartsAux ov c1.hops with
    | Except.error e => (Except.error e, c1)
    | Except.ok parts =>
      let pn : ℤ := (parts.map Prod.fst).prod
      let pd : ℤ := (parts.map Prod.snd).prod
      if pd = 0 then (Except.error PreCalcError.zeroDivision, c1)
      else
        let rate : ℚ := (pn : ℚ) / (pd : ℚ)
        if rate < minRate then
          (Except.error (PreCalcError.rateOfExchangeBelowMinimum rate), c1)
        else (Except.ok (), c1)

/-- The per-hop instantaneous rate of exchange stated by the spec:
`reserves_out · (feeDenominator − feeNumerator) / (reserves_in · feeDenominator)`
for constant-product pools and the
`sqrtPrice² · (1000000 − fee) / (2¹⁹² · 1000000)` ratio (or its price
reciprocal) for concentrated-liquidity pools; `0` on a kind mismatch. -/
def specHopRate (h : Hop) (st : PoolState) : ℚ :=
  match h.pool, st with
  | PoolStatic.v2 p, PoolState.v2 s =>
    if h.zeroForOne then
      ((s.reservesToken1 : ℚ) * ((p.feeToken0Den : ℚ) - (p.feeToken0Num : ℚ))) /
        ((s.reservesToken0 : ℚ) * (p.feeToken0Den : ℚ))
    else
      ((s.reservesToken0 : ℚ) * ((p.feeToken1Den : ℚ) - (p.feeToken1Num : ℚ))) /
        ((s.reservesToken1 : ℚ) * (p.feeToken1Den : ℚ))
  | PoolStatic.v3 p, PoolState.v3 s =>
    if h.zeroForOne then
      ((s.sqrtPriceX96 : ℚ) * (s.sqrtPriceX96 : ℚ) * ((1000000 : ℚ) - (p.fee : ℚ))) /
        ((q192 : ℚ) * 1000000)
    else
      ((q192 : ℚ) * ((1000000 : ℚ) - (p.fee : ℚ))) /
        ((s.sqrtPriceX96 : ℚ) * (s.sqrtPriceX96 : ℚ) * 1000000)
  | _, _ => 0

/-- The per-hop `(1 − fee)` factor, in the trade direction of the hop. -/
def hopFeeFactor (h : Hop) : ℚ :=
  match h.pool with
  | PoolStatic.v2 p =>
    if h.zeroForOne then 1 - (p.feeToken0Num : ℚ) / (p.feeToken0Den : ℚ)
    else 1 - (p.feeToken1Num : ℚ) / (p.feeToken1Den : ℚ)
  | PoolStatic.v3 p => 1 - (p.fee : ℚ) / 1000000

/-- The two executor kinds accepted by `calculate_with_pool`. -/
inductive Executor where
  | processPool
  | threadPool
deriving DecidableEq

/-- Exceptions escaping `calculate_with_pool` before work is scheduled:
the up-front `DegenbotValueError` refusing a process-pool executor over a
sparse V3 liquidity map, or a propagated `_pre_calculation_check` fault. -/
inductive CalcWPError where
  | sparseMapRefusal
  | preCalc (e : PreCalcError)
deriving DecidableEq

/-- Whether a pool is a V3 pool with `sparse_liquidity_map` set. -/
def isSparseV3Pool : PoolStatic → Bool
  | PoolStatic.v2 _ => false
  | PoolStatic.v3 p => p.sparseLiquidityMap

/-- Embedding of the synchronous prefix of
`UniswapLpCycle.calculate_with_pool` (everything before
`run_in_executor`): the sparse-map refusal, then the pre-calculation
check; `Except.ok ()` means the calculation was handed to the executor. -/
def calculateWithPool (ratioAt : ℤ → ℕ) (ex : Executor) (c : Cycle)
    (minRate : ℚ) (ov : Overrides) : Except CalcWPError Unit :=
  if ex = Executor.processPool ∧ c.hops.any (fun h => isSparseV3Pool h.pool) then
    Except.error CalcWPError.sparseMapRefusal
  else
    match (preCalculationCheckS ratioAt c minRate ov).1 with
    | Except.error e => Except.error (CalcWPError.preCalc e)
    | Except.ok _ => Except.ok ()

/-- The two exception classes caught inside `arb_profit`
(`EVMRevertError` and `LiquidityPoolError`). -/
inductive SwapFault where
  | evmRevert
  | liquidityPool
deriving DecidableEq

/-- The hop-chaining loop of `arb_profit`: each pool's
`calculate_tokens_out_from_tokens_in` (an abstract `ℤ → Except SwapFault ℤ`
here, since the pool classes live outside the embedded files) is fed the
previous hop's output. -/
def runHopsFrom (amount : ℤ) : List (ℤ → Except SwapFault ℤ) → Except SwapFault ℤ
  | [] => Except.ok amount
  | hop :: rest =>
    match hop amount with
    | Except.error e => Except.error e
    | Except.ok o => runHopsFrom o rest

/-- Whole-cycle output before fault recovery: `token_out_quantity` starts
at `0`, the first hop receives `token_in_quantity`, each later hop receives
the previous output. -/
def cycleTokenOut (hops : List (ℤ → Except SwapFault ℤ)) (tokenIn : ℤ) :
    Except SwapFault ℤ :=
  match hops with
  | [] => Except.ok 0
  | _ => runHopsFrom tokenIn hops

/-- Python `int(x)` on a real number: truncation toward zero. -/
def truncToInt (x : ℚ) : ℤ :=
  if 0 ≤ x then ⌊x⌋ else ⌈x⌉

/-- The `try`/`except` block of `arb_profit`: a caught `EVMRevertError` or
`LiquidityPoolError` from any hop makes the whole-cycle output `0`. -/
def cycleOutRecovered (hops : List (ℤ → Except SwapFault ℤ)) (tokenIn : ℤ) : ℤ :=
  match cycleTokenOut hops tokenIn with
  | Except.ok o => o
  | Except.error _ => 0

/-- Embedding of the `arb_profit` closure in `UniswapLpCycle._calculate`:
truncate the probed input, run the cycle, treat a caught fault as zero
output, and return the negated profit. -/
def arbProfit (hops : List (ℤ → Except SwapFault ℤ)) (x : ℚ) : ℚ :=
  -(((cycleOutRecovered hops (truncToInt x) - truncToInt x : ℤ) : ℚ))

/-- The `newest_state_block` accumulation loop in `_calculate`: starting
from `None`, take the running maximum of the block numbers and break to
`None` as soon as a state without a block number is seen. -/
def newestStateBlockAux : Option ℕ → List PoolState → Option ℕ
  | acc, [] => acc
  | acc, s :: rest =>
    match s.block with
    | none => none
    | some b =>
      newestStateBlockAux (some (match acc with | none => b | some a => max a b)) rest

/-- The `state_block` field of the `ArbitrageCalculationResult` returned by
`_calculate`, as a function of the contributing pool states. -/
def newestStateBlock (states : List PoolState) : Option ℕ :=
  newestStateBlockAux none states

/-- `UniswapV2PoolSwapAmounts` (from `degenbot/arbitrage/types.py`). -/
structure V2SwapAmounts where
  pool : ℕ
  amountsIn : ℤ × ℤ
  amountsOut : ℤ × ℤ
deriving DecidableEq

/-- `UniswapV3PoolSwapAmounts` (from `degenbot/arbitrage/types.py`). -/
structure V3SwapAmounts where
  pool : ℕ
  amountSpecified : ℤ
  zeroForOne : Bool
  sqrtPriceLimitX96 : ℕ
deriving DecidableEq

/-- A per-hop swap-amount record, tagged by family. -/
inductive SwapAmounts where
  | v2 (a : V2SwapAmounts)
  | v3 (a : V3SwapAmounts)
deriving DecidableEq

/-- ABI calldata built by `generate_payloads`, kept symbolic: the selector
and argument tuple of each of the three encoded call shapes. -/
inductive CallData where
  | transferCall (recipient : ℕ) (amount : ℤ)
  | v2SwapCall (amount0Out : ℤ) (amount1Out : ℤ) (recipient : ℕ)
  | v3SwapCall (recipient : ℕ) (zeroForOne : Bool) (amountSpecified : ℤ)
      (sqrtPriceLimitX96 : ℕ)
deriving DecidableEq

/-- One `(targetAddress, encodedCall, value)` payload triple. -/
def Payload : Type := ℕ × CallData × ℕ

/-- Whether a pool belongs to the constant-product (V2) families. -/
def isV2Pool : PoolStatic → Bool
  | PoolStatic.v2 _ => true
  | PoolStatic.v3 _ => false

/-- Exceptions escaping `generate_payloads`: the `DegenbotValueError` from
the fall-through match case, and the `ValueError` a `strict=True` zip
raises on length mismatch. -/
inductive GenPayloadError where
  | typeMismatch
  | zipLengthMismatch
deriving DecidableEq

/-- The loop body of `generate_payloads` over the zipped
(pool, swap-amounts) list.  `isFirst` tracks `i == 0`; the destination is
the next pool's address when the next pool is a V2 pool, else the caller.
The `match i, swap_pool, _swap_amounts` statement takes only its first
matching case, so when `i == 0` and the first pool is a V2 pool, only the
token-transfer payload is appended on that iteration. -/
def generatePayloadsAux (fromAddr inputToken : ℕ) (swapAmount : ℤ) :
    Bool → List (Hop × SwapAmounts) → Except GenPayloadError (List Payload)
  | _, [] => Except.ok []
  | isFirst, (h, amts) :: rest =>
    let dest : ℕ :=
      match rest with
      | (nh, _) :: _ => if isV2Pool nh.pool then nh.address else fromAddr
      | [] => fromAddr
    let payload : Except GenPayloadError Payload :=
      if isFirst ∧ isV2Pool h.pool then
        Except.ok (inputToken, CallData.transferCall h.address swapAmount, 0)
      else
        match h.pool, amts with
        | PoolStatic.v2 _, SwapAmounts.v2 a =>
          Except.ok (h.address, CallData.v2SwapCall a.amountsOut.1 a.amountsOut.2 dest, 0)
        | PoolStatic.v3 _, SwapAmounts.v3 a =>
          Except.ok (h.address,
            CallData.v3SwapCall dest a.zeroForOne a.amountSpecified a.sqrtPriceLimitX96, 0)
        | _, _ => Except.error GenPayloadError.typeMismatch
    match payload with
    | Except.error e => Except.error e
    | Except.ok p =>
      match generatePayloadsAux fromAddr inputToken swapAmount false rest with
      | Except.error e => Except.error e
      | Except.ok ps => Except.ok (p :: ps)

/-- Embedding of `UniswapLpCycle.generate_payloads`. -/
def generatePayloads (fromAddr : ℕ) (swapAmount : ℤ) (c : Cycle)
    (amounts : List SwapAmounts) : Except GenPayloadError (List Payload) :=
  if c.hops.length = amounts.length then
    generatePayloadsAux fromAddr c.inputTokenAddress swapAmount true (c.hops.zip amounts)
  else Except.error GenPayloadError.zipLengthMismatch

/-- Python `int.from_bytes(chunk)` with the default big-endian order. -/
def beBytesToNat (l : List ℕ) : ℕ :=
  l.foldl (fun acc b => acc * 256 + b) 0

/-- The checksummed form of a 20-byte address chunk
(`to_checksum_address(chunk)`), modelled as an injective tag on the raw
bytes so that which chunk was checksummed stays observable. -/
structure ChecksumAddr where
  bytes : List ℕ
deriving DecidableEq

/-- An element of the decoded V3 path: an address or a fee. -/
inductive PathElem where
  | addr (a : ChecksumAddr)
  | fee (f : ℕ)
deriving DecidableEq

/-- The loop of `decode_v3_path`: read alternating 20- and 3-byte chunks,
stopping once the position reaches the end of the byte string.  The source
tracks an index `path_pos` into the fixed string; here the not-yet-consumed
suffix is carried instead, which agrees with the source whenever the chunk
boundaries land exactly on the end of the input (as they do for any
20/3-alternating-length input such as the 43-byte paths at issue). -/
def decodeV3PathGo (isAddr : Bool) (rest : List ℕ) : List PathElem :=
  let elem : PathElem :=
    if isAddr then PathElem.addr ⟨rest.take 20⟩
    else PathElem.fee (beBytesToNat (rest.take 3))
  if h : rest.drop (if isAddr then 20 else 3) = [] then [elem]
  else elem :: decodeV3PathGo (!isAddr) (rest.drop (if isAddr then 20 else 3))
termination_by rest.length
decreasing_by
  have hpos : 0 < (rest.drop (if isAddr then 20 else 3)).length :=
    List.length_pos.mpr h
  rw [List.length_drop] at hpos
  cases isAddr <;> simp at hpos ⊢ <;> omega

/-- Embedding of `decode_v3_path`. -/
def decodeV3Path (path : List ℕ) : List PathElem :=
  decodeV3PathGo true path

/-- The Balancer fixed-point and scaling helpers used by
`calculate_tokens_out_from_tokens_in`; they live in
`degenbot/balancer/libraries/`, outside the embedded files, so they are
abstract parameters here. -/
structure BalancerLibs where
  mulUp : ℤ → ℕ → ℤ
  subtractSwapFeeAmount : ℤ → ℕ → ℤ
  upscale : ℤ → ℕ → ℤ
  upscaleArray : List ℤ → List ℕ → List ℤ
  downscaleDown : ℤ → ℕ → ℤ
  calcOutGivenIn : ℤ → ℕ → ℤ → ℕ → ℤ → ℤ

/-- `BalancerV2PoolState`: the vault balances plus the block number. -/
structure BalancerStateModel where
  balances : List ℕ
  block : Option ℕ
deriving DecidableEq

/-- The fields of a `BalancerV2Pool` object read by
`calculate_tokens_out_from_tokens_in`: token identities, the current state
(whose `balances` back the `balances` property), the raw swap-fee integer
(`fee · FEE_DENOMINATOR`), the normalized weights and scaling factors. -/
structure BalancerV2PoolModel where
  tokens : List ℕ
  currentState : BalancerStateModel
  feeRaw : ℕ
  weights : List ℕ
  scalingFactors : List ℕ

/-- Embedding of `BalancerV2Pool.calculate_tokens_out_from_tokens_in`.
`none` models any raised exception: `ValueError` from `tokens.index`,
`AssertionError` from the fee-subtraction assert, `IndexError` from list
indexing.  The `override_state` parameter is declared exactly as in the
source signature; the body, like the source body, never reads it. -/
def calculateTokensOutFromTokensIn (libs : BalancerLibs)
    (pool : BalancerV2PoolModel) (tokenIn : ℕ) (tokenInQuantity : ℤ)
    (tokenOut : ℕ) (overrideState : Option BalancerStateModel) : Option ℤ :=
  match pool.tokens.findIdx? (fun t => t == tokenIn),
        pool.tokens.findIdx? (fun t => t == tokenOut) with
  | some tokenInIndex, some tokenOutIndex =>
    let feeAmount := libs.mulUp tokenInQuantity pool.feeRaw
    let amountNew := libs.subtractSwapFeeAmount tokenInQuantity pool.feeRaw
    if tokenInQuantity - feeAmount = amountNew then
      let balances :=
        libs.upscaleArray (pool.currentState.balances.map Int.ofNat) pool.scalingFactors
      match pool.scalingFactors.get? tokenInIndex,
            pool.scalingFactors.get? tokenOutIndex,
            balances.get? tokenInIndex, balances.get? tokenOutIndex,
            pool.weights.get? tokenInIndex, pool.weights.get? tokenOutIndex with
      | some sfIn, some sfOut, some balIn, some balOut, some wIn, some wOut =>
        let amountNewUp := libs.upscale amountNew sfIn
        let amountOut := libs.calcOutGivenIn balIn wIn balOut wOut amountNewUp
        some (libs.downscaleDown amountOut sfOut)
      | _, _, _, _, _, _ => none
    else none
  | _, _ => none

/-- The net rate of exchange of a cycle as the spec states it: the product
over hops of the per-hop rates at the override-resolved states. -/
def specCycleRate (c : Cycle) (ov : Overrides) : ℚ :=
  (c.hops.map (fun h => specHopRate h (resolveState ov h))).prod

/-- Fee `Fraction(3, 1000)` on both directions of a V2 pool (a 0.3% fee). -/
def feeThreePerMille : V2PoolParams := ⟨3, 1000, 3, 1000⟩

/-- Concrete two-hop cycle used against claim C1's fee-product clause:
two 0.3%-fee constant-product pools, each holding reserves `(1000, 2000)`
traded `zeroForOne`, so each hop's reserve ratio is `2` while each fee
factor is `997/1000`. -/
def cexFeeCycle : Cycle :=
  { hops :=
      [ { address := 0
          pool := PoolStatic.v2 feeThreePerMille
          state := PoolState.v2 { reservesToken0 := 1000, reservesToken1 := 2000, block := none }
          zeroForOne := true },
        { address := 1
          pool := PoolStatic.v2 feeThreePerMille
          state := PoolState.v2 { reservesToken0 := 1000, reservesToken1 := 2000, block := none }
          zeroForOne := true } ]
    viability := [(0, true), (1, true)]
    inputTokenAddress := 99
    maxInput := 100 }

/-- Concrete one-hop cycle whose net rate (`1994/1000`) is above `1`;
used to witness the C1 rate theorem. -/
def witRateCycle : Cycle :=
  { hops :=
      [ { address := 0
          pool := PoolStatic.v2 feeThreePerMille
          state := PoolState.v2 { reservesToken0 := 1000, reservesToken1 := 2000, block := none }
          zeroForOne := true } ]
    viability := [(0, true)]
    inputTokenAddress := 99
    maxInput := 100 }

/-- Concrete two-hop all-V2 cycle used to evaluate `generate_payloads` at
a failing input for claim C6. -/
def payloadCycle : Cycle :=
  { hops :=
      [ { address := 10
          pool := PoolStatic.v2 feeThreePerMille
          state := PoolState.v2 { reservesToken0 := 1000, reservesToken1 := 2000, block := none }
          zeroForOne := true },
        { address := 11
          pool := PoolStatic.v2 feeThreePerMille
          state := PoolState.v2 { reservesToken0 := 1000, reservesToken1 := 2000, block := none }
          zeroForOne := false } ]
    viability := [(10, true), (11, true)]
    inputTokenAddress := 99
    maxInput := 100 }

/-- The swap-amount records accompanying `payloadCycle`. -/
def payloadAmounts : List SwapAmounts :=
  [ SwapAmounts.v2 { pool := 10, amountsIn := (5, 0), amountsOut := (0, 9) },
    SwapAmounts.v2 { pool := 11, amountsIn := (0, 9), amountsOut := (8, 0) } ]

/-! ## Lemmas on the list-min/max helpers -/

theorem foldl_min_le (l : List ℤ) : ∀ a x : ℤ, (x = a ∨ x ∈ l) →
    l.foldl min a ≤ x := by
  induction l with
  | nil =>
    intro a x hx
    rcases hx with rfl | hx
    · exact le_refl _
    · cases hx
  | cons b t ih =>
    intro a x hx
    rcases hx with rfl | hx
    · calc t.foldl min (min x b) ≤ min x b := ih _ _ (Or.inl rfl)
        _ ≤ x := min_le_left _ _
    · rcases List.mem_cons.mp hx with rfl | hx
      · calc t.foldl min (min a x) ≤ min a x := ih _ _ (Or.inl rfl)
          _ ≤ x := min_le_right _ _
      · exact ih _ _ (Or.inr hx)

theorem foldl_min_mem (l : List ℤ) : ∀ a : ℤ,
    l.foldl min a = a ∨ l.foldl min a ∈ l := by
  induction l with
  | nil => intro a; exact Or.inl rfl
  | cons b t ih =>
    intro a
    rcases ih (min a b) with h | h
    · simp only [List.foldl_cons, h]
      rcases min_choice a b with h2 | h2
      · exact Or.inl h2
      · exact Or.inr (by rw [h2]; exact List.mem_cons_self _ _)
    · exact Or.inr (List.mem_cons_of_mem _ h)

theorem listMinZ_le (l : List ℤ) (x : ℤ) (hx : x ∈ l) : listMinZ l ≤ x := by
  cases l with
  | nil => cases hx
  | cons t rest =>
    rcases List.mem_cons.mp hx with rfl | hx
    · exact foldl_min_le rest x x (Or.inl rfl)
    · exact foldl_min_le rest t x (Or.inr hx)

theorem listMinZ_mem (l : List ℤ) (hl : l ≠ []) : listMinZ l ∈ l := by
  cases l with
  | nil => exact absurd rfl hl
  | cons t rest =>
    rcases foldl_min_mem rest t with h | h
    · rw [listMinZ, h]; exact List.mem_cons_self _ _
    · exact List.mem_cons_of_mem _ h

theorem foldl_max_le (l : List ℤ) : ∀ a x : ℤ, (x = a ∨ x ∈ l) →
    x ≤ l.foldl max a := by
  induction l with
  | nil =>
    intro a x hx
    rcases hx with rfl | hx
    · exact le_refl _
    · cases hx
  | cons b t ih =>
    intro a x hx
    rcases hx with rfl | hx
    · calc x ≤ max x b := le_max_left _ _
        _ ≤ t.foldl max (max x b) := ih _ _ (Or.inl rfl)
    · rcases List.mem_cons.mp hx with rfl | hx
      · calc x ≤ max a x := le_max_right _ _
          _ ≤ t.foldl max (max a x) := ih _ _ (Or.inl rfl)
      · exact ih _ _ (Or.inr hx)

theorem foldl_max_mem (l : List ℤ) : ∀ a : ℤ,
    l.foldl max a = a ∨ l.foldl max a ∈ l := by
  induction l with
  | nil => intro a; exact Or.inl rfl
  | cons b t ih =>
    intro a
    rcases ih (max a b) with h | h
    · simp only [List.foldl_cons, h]
      rcases max_choice a b with h2 | h2
      · exact Or.inl h2
      · exact Or.inr (by rw [h2]; exact List.mem_cons_self _ _)
    · exact Or.inr (List.mem_cons_of_mem _ h)

theorem listMaxZ_le (l : List ℤ) (x : ℤ) (hx : x ∈ l) : x ≤ listMaxZ l := by
  cases l with
  | nil => cases hx
  | cons t rest =>
    rcases List.mem_cons.mp hx with rfl | hx
    · exact foldl_max_le rest x x (Or.inl rfl)
    · exact foldl_max_le rest t x (Or.inr hx)

theorem listMaxZ_mem (l : List ℤ) (hl : l ≠ []) : listMaxZ l ∈ l := by
  cases l with
  | nil => exact absurd rfl hl
  | cons t rest =>
    rcases foldl_max_mem rest t with h | h
    · rw [listMaxZ, h]; exact List.mem_cons_self _ _
    · exact List.mem_cons_of_mem _ h

/-! ## C7 — constant-product viability -/

/-- C7: for every constant-product (V2-style) pool state and every swap
vector, `_pool_is_viable` returns `True` exactly when both reserves are
nonzero and the reserve being drawn down (the output-side reserve for the
trade direction) exceeds 1 unit; it never raises on such inputs. -/
theorem poolIsViable_v2_spec (ratioAt : ℤ → ℕ) (p : V2PoolParams)
    (s : V2PoolState) (zeroForOne : Bool) :
    (poolIsViable ratioAt (PoolStatic.v2 p) (PoolState.v2 s) zeroForOne = Except.ok true ↔
      s.reservesToken0 ≠ 0 ∧ s.reservesToken1 ≠ 0 ∧
        (if zeroForOne then 1 < s.reservesToken1 else 1 < s.reservesToken0)) ∧
    (∃ b, poolIsViable ratioAt (PoolStatic.v2 p) (PoolState.v2 s) zeroForOne = Except.ok b) := by
  constructor
  · rw [poolIsViable]
    by_cases h0 : s.reservesToken0 = 0 ∨ s.reservesToken1 = 0
    · rw [if_pos h0]
      constructor
      · intro h; cases h
      · rintro ⟨h1, h2, _⟩
        rcases h0 with h | h
        · exact absurd h h1
        · exact absurd h h2
    · rw [if_neg h0]
      push_neg at h0
      cases zeroForOne with
      | false =>
        simp only [if_false, Bool.false_eq_true]
        constructor
        · intro h
          refine ⟨h0.1, h0.2, ?_⟩
          have := Except.ok.inj h
          exact of_decide_eq_true this
        · rintro ⟨_, _, h⟩
          simp [h]
      | true =>
        simp only [if_true]
        constructor
        · intro h
          refine ⟨h0.1, h0.2, ?_⟩
          have := Except.ok.inj h
          exact of_decide_eq_true this
        · rintro ⟨_, _, h⟩
          simp [h]
  · rw [poolIsViable]
    by_cases h0 : s.reservesToken0 = 0 ∨ s.reservesToken1 = 0
    · exact ⟨false, by rw [if_pos h0]⟩
    · exact ⟨_, by rw [if_neg h0]⟩

/-! ## C3 — concentrated-liquidity viability -/

/-- C3: for every concentrated-liquidity (V3) pool, `_pool_is_viable`
returns `True` whenever the liquidity map is sparse; otherwise it returns
`False` when the tick data is empty (which covers the price-zero,
no-tick-data case); it faults loudly when the price is zero but tick data
exists; and otherwise it returns `True` exactly when a liquidity position
exists on the side the trade consumes — a tick whose sqrt ratio is below
the current price for a price-decreasing (`zeroForOne`) trade, above it
for a price-increasing trade — given that `get_sqrt_ratio_at_tick` is
monotone in the tick. -/
theorem poolIsViable_v3_spec (ratioAt : ℤ → ℕ) (p : V3PoolParams)
    (s : V3PoolState) (zeroForOne : Bool) (hmono : Monotone ratioAt) :
    (p.sparseLiquidityMap = true →
      poolIsViable ratioAt (PoolStatic.v3 p) (PoolState.v3 s) zeroForOne = Except.ok true) ∧
    (p.sparseLiquidityMap = false → s.tickKeys = [] →
      poolIsViable ratioAt (PoolStatic.v3 p) (PoolState.v3 s) zeroForOne = Except.ok false) ∧
    (p.sparseLiquidityMap = false → s.tickKeys ≠ [] → s.sqrtPriceX96 = 0 →
      poolIsViable ratioAt (PoolStatic.v3 p) (PoolState.v3 s) zeroForOne =
        Except.error ViabilityError.invariantViolation) ∧
    (p.sparseLiquidityMap = false → s.tickKeys ≠ [] → s.sqrtPriceX96 ≠ 0 →
      (poolIsViable ratioAt (PoolStatic.v3 p) (PoolState.v3 s) zeroForOne = Except.ok true ↔
        if zeroForOne then ∃ t ∈ s.tickKeys, ratioAt t < s.sqrtPriceX96
        else ∃ t ∈ s.tickKeys, s.sqrtPriceX96 < ratioAt t)) := by
  refine ⟨?_, ?_, ?_, ?_⟩
  · intro hs
    rw [poolIsViable, if_pos hs]
  · intro hs he
    rw [poolIsViable, if_neg (by simp [hs]), if_pos he]
  · intro hs he hz
    rw [poolIsViable, if_neg (by simp [hs]), if_neg he, if_pos hz, if_pos he]
  · intro hs he hz
    rw [poolIsViable, if_neg (by simp [hs]), if_neg he, if_neg hz]
    cases zeroForOne with
    | true =>
      simp only [if_true]
      constructor
      · intro h
        have hlt := of_decide_eq_true (Except.ok.inj h)
        exact ⟨listMinZ s.tickKeys, listMinZ_mem _ he, hlt⟩
      · rintro ⟨t, ht, hlt⟩
        have : ratioAt (listMinZ s.tickKeys) ≤ ratioAt t :=
          hmono (listMinZ_le _ _ ht)
        simp [lt_of_le_of_lt this hlt]
    | false =>
      simp only [Bool.false_eq_true, if_false]
      constructor
      · intro h
        have hlt := of_decide_eq_true (Except.ok.inj h)
        exact ⟨listMaxZ s.tickKeys, listMaxZ_mem _ he, hlt⟩
      · rintro ⟨t, ht, hlt⟩
        have : ratioAt t ≤ ratioAt (listMaxZ s.tickKeys) :=
          hmono (listMaxZ_le _ _ ht)
        simp [lt_of_lt_of_le hlt this]

/-- Witness for `poolIsViable_v3_spec`: with `Int.toNat` (a monotone
function) for `get_sqrt_ratio_at_tick`, a non-sparse pool holding ticks
`[2, 5]` at price `10` is viable for a `zeroForOne` trade because tick `2`
sits below the price. -/
theorem poolIsViable_v3_spec_witness :
    poolIsViable Int.toNat (PoolStatic.v3 ⟨500, false⟩)
      (PoolState.v3 ⟨10, [2, 5], none⟩) true = Except.ok true :=
  ((poolIsViable_v3_spec Int.toNat ⟨500, false⟩ ⟨10, [2, 5], none⟩ true
      (fun _ _ h => Int.toNat_le_toNat h)).2.2.2
    rfl (by decide) (by decide)).mpr ⟨2, by decide, by decide⟩

/-! ## C10 — the pre-calculation check has no side effects -/

theorem viabilityScanS_snd (ratioAt : ℤ → ℕ) (c : Cycle) (ov : Overrides) :
    ∀ l : List Hop, (viabilityScanS ratioAt c ov l).2 = c := by
  intro l
  induction l with
  | nil => rfl
  | cons h rest ih =>
    rw [viabilityScanS]
    cases hsc : scanHopCond ratioAt c.hops ov h with
    | error e => simp
    | ok b =>
      cases b with
      | true => simp
      | false =>
        cases hv : assocLookup c.viability h.address with
        | none => simp
        | some cached =>
          cases cached with
          | false => simp
          | true => simpa using ih

/-- C10: for every cycle, every minimum rate of exchange and every
state-override mapping, `_pre_calculation_check` leaves the cycle's
observable state (hops with their cached states and swap vectors, the
viability cache, the input token and the maximum input) unchanged, both
when it returns normally and when it raises. -/
theorem preCalculationCheck_preserves_cycle (ratioAt : ℤ → ℕ) (c : Cycle)
    (minRate : ℚ) (ov : Overrides) :
    (preCalculationCheckS ratioAt c minRate ov).2 = c := by
  have hsnd := viabilityScanS_snd ratioAt c ov c.hops
  rw [preCalculationCheckS]
  rcases hvs : viabilityScanS ratioAt c ov c.hops with ⟨r, c1⟩
  rw [hvs] at hsnd
  simp only at hsnd
  cases r with
  | error e => simpa using hsnd
  | ok u =>
    simp only
    cases ratePartsAux ov c1.hops with
    | error e => simpa using hsnd
    | ok parts =>
      simp only
      split
      · simpa using hsnd
      · split <;> simpa using hsnd

/-! ## C1 — the exact-rational exchange-rate gate -/

theorem cast_list_prod (l : List ℤ) :
    ((l.prod : ℤ) : ℚ) = (l.map (fun z : ℤ => (z : ℚ))).prod := by
  induction l with
  | nil => simp
  | cons a t ih => simp [List.prod_cons, ih]

theorem prod_pairs_div (parts : List (ℤ × ℤ)) :
    ((parts.map Prod.fst).map (fun z : ℤ => (z : ℚ))).prod /
      ((parts.map Prod.snd).map (fun z : ℤ => (z : ℚ))).prod
      = (parts.map (fun p => (p.1 : ℚ) / (p.2 : ℚ))).prod := by
  induction parts with
  | nil => simp
  | cons p t ih =>
    simp only [List.map_cons, List.prod_cons]
    rw [← ih, div_mul_div_comm]

theorem hopRateParts_spec (h : Hop) (st : PoolState) (n d : ℤ)
    (hok : hopRateParts h st = Except.ok (n, d)) :
    (n : ℚ) / (d : ℚ) = specHopRate h st := by
  obtain ⟨addr, pool, hstate, zfo⟩ := h
  cases pool <;> cases st <;> cases zfo <;>
    simp only [hopRateParts, specHopRate, Bool.false_eq_true, if_true, if_false,
      Except.ok.injEq, Prod.mk.injEq, reduceCtorEq] at hok ⊢ <;>
  · obtain ⟨h1, h2⟩ := hok
    subst h1
    subst h2
    push_cast
    ring

theorem ratePartsAux_spec (ov : Overrides) : ∀ (l : List Hop) (parts : List (ℤ × ℤ)),
    ratePartsAux ov l = Except.ok parts →
    parts.map (fun p => (p.1 : ℚ) / (p.2 : ℚ))
      = l.map (fun h => specHopRate h (resolveState ov h)) := by
  intro l
  induction l with
  | nil =>
    intro parts hp
    rw [ratePartsAux] at hp
    cases hp
    simp
  | cons h rest ih =>
    intro parts hp
    rw [ratePartsAux] at hp
    cases hnd : hopRateParts h (resolveState ov h) with
    | error e => rw [hnd] at hp; cases hp
    | ok nd =>
      rw [hnd] at hp
      cases hrest : ratePartsAux ov rest with
      | error e => rw [hrest] at hp; cases hp
      | ok l2 =>
        rw [hrest] at hp
        cases hp
        simp only [List.map_cons]
        refine congrArg₂ (· :: ·) ?_ (ih l2 hrest)
        exact hopRateParts_spec h (resolveState ov h) nd.1 nd.2 (by rwa [Prod.mk.eta])

theorem mem_map_snd_of_pair {parts : List (ℤ × ℤ)} {x : ℤ}
    (hx : x ∈ parts.map Prod.snd) : ∃ p ∈ parts, p.2 = x := by
  obtain ⟨p, hp, rfl⟩ := List.mem_map.mp hx
  exact ⟨p, hp, rfl⟩

/-- C1 (amended): whenever the viability scan passes and every pool/state
pair is well-formed (so the exchange-rate loop produces its per-hop
numerators and denominators) with nonzero denominators,
`_pre_calculation_check` computes the net rate of exchange as the exact
rational product over hops of
`reserves_out·(feeDenominator−feeNumerator)/(reserves_in·feeDenominator)`
(constant-product) or `sqrtPrice²·(1000000−fee)/(2¹⁹²·1000000)`-style
ratios (concentrated-liquidity), raises `RateOfExchangeBelowMinimum`
carrying that product exactly when the product is below
`min_rate_of_exchange`, and returns normally exactly otherwise.  The
original claim's further clause — rejection of every cycle whose product
of per-hop `(1−fee)` factors is below `1` regardless of reserve sizes —
is refuted by `preCalculationCheck_feeProduct_counterexample`. -/
theorem preCalculationCheck_rate_spec (ratioAt : ℤ → ℕ) (c : Cycle)
    (minRate : ℚ) (ov : Overrides) (parts : List (ℤ × ℤ))
    (hscan : (viabilityScanS ratioAt c ov c.hops).1 = Except.ok ())
    (hparts : ratePartsAux ov c.hops = Except.ok parts)
    (hden : ∀ p ∈ parts, p.2 ≠ (0 : ℤ)) :
    ((preCalculationCheckS ratioAt c minRate ov).1 =
        Except.error (PreCalcError.rateOfExchangeBelowMinimum (specCycleRate c ov)) ↔
      specCycleRate c ov < minRate) ∧
    ((preCalculationCheckS ratioAt c minRate ov).1 = Except.ok () ↔
      minRate ≤ specCycleRate c ov) := by
  have hsnd := viabilityScanS_snd ratioAt c ov c.hops
  rw [preCalculationCheckS]
  rcases hvs : viabilityScanS ratioAt c ov c.hops with ⟨r, c1⟩
  rw [hvs] at hsnd hscan
  simp only at hsnd hscan
  subst hscan
  rw [hsnd]
  have hpd : ((parts.map Prod.snd).prod : ℤ) ≠ 0 := by
    refine List.prod_ne_zero ?_
    intro hx
    obtain ⟨p, hp, h0⟩ := mem_map_snd_of_pair hx
    exact hden p hp h0
  have hrate : (((parts.map Prod.fst).prod : ℤ) : ℚ) /
      (((parts.map Prod.snd).prod : ℤ) : ℚ) = specCycleRate c ov := by
    rw [cast_list_prod, cast_list_prod, prod_pairs_div, specCycleRate,
      ratePartsAux_spec ov c.hops parts hparts]
  simp only [hparts, if_neg hpd, hrate]
  by_cases hlt : specCycleRate c ov < minRate
  · rw [if_pos hlt]
    refine ⟨⟨fun _ => hlt, fun _ => rfl⟩, ⟨fun h => ?_, fun h => absurd hlt (not_lt.mpr h)⟩⟩
    cases h
  · rw [if_neg hlt]
    refine ⟨⟨fun h => ?_, fun h => absurd h hlt⟩, ⟨fun _ => not_lt.mp hlt, fun _ => rfl⟩⟩
    cases h

/-- Witness for `preCalculationCheck_rate_spec`: on the one-hop cycle
`witRateCycle` (net rate `1994/1000 ≥ 1`) the check passes. -/
theorem preCalculationCheck_rate_spec_witness :
    (preCalculationCheckS (fun _ => 0) witRateCycle 1 ([] : List (ℕ × PoolState))).1 =
      Except.ok () :=
  (preCalculationCheck_rate_spec (fun _ => 0) witRateCycle 1 []
      [(1994000, 1000000)] rfl rfl (by decide)).2.mpr
    (by norm_num [specCycleRate, specHopRate, resolveState, assocLookup,
      witRateCycle, feeThreePerMille])

/-- Counterexample to C1 as stated: `cexFeeCycle` is a two-hop cycle whose
product of per-hop `(1−fee)` factors is `(997/1000)² < 1`, yet with the
default `min_rate_of_exchange = 1` the check returns normally (does not
raise), because each hop's `2000/1000` reserve ratio lifts the net rate
above `1`.  So a cycle with fee-product below 1 is not rejected
"regardless of reserve sizes". -/
theorem preCalculationCheck_feeProduct_counterexample :
    (cexFeeCycle.hops.map hopFeeFactor).prod < 1 ∧
      (preCalculationCheckS (fun _ => 0) cexFeeCycle 1 ([] : List (ℕ × PoolState))).1 =
        Except.ok () := by
  constructor
  · norm_num [cexFeeCycle, hopFeeFactor, feeThreePerMille]
  · have h1 : viabilityScanS (fun _ => 0) cexFeeCycle [] cexFeeCycle.hops =
        (Except.ok (), cexFeeCycle) := rfl
    have h2 : ratePartsAux [] cexFeeCycle.hops =
        Except.ok [(1994000, 1000000), (1994000, 1000000)] := rfl
    rw [preCalculationCheckS, h1]
    simp only [h2]
    norm_num [List.map_cons, List.map_nil, List.prod_cons, List.prod_nil]

/-! ## C5 — process-pool refusal over sparse liquidity maps -/

/-- C5: `calculate_with_pool` raises its up-front refusal error exactly
when the executor is process-based and some pool in the path is a V3 pool
with a sparse liquidity map; with a thread-based executor, or when no pool
has a sparse map, that refusal never occurs (the biconditional's right
side is then false).  The refusal is checked before the pre-calculation
gate and the executor dispatch, so it precedes any optimization work. -/
theorem calculateWithPool_sparse_refusal (ratioAt : ℤ → ℕ) (ex : Executor)
    (c : Cycle) (minRate : ℚ) (ov : Overrides) :
    calculateWithPool ratioAt ex c minRate ov =
        Except.error CalcWPError.sparseMapRefusal ↔
      ex = Executor.processPool ∧ ∃ h ∈ c.hops, isSparseV3Pool h.pool = true := by
  rw [calculateWithPool]
  by_cases hc : ex = Executor.processPool ∧ c.hops.any (fun h => isSparseV3Pool h.pool)
  · rw [if_pos hc]
    simp only [true_iff]
    exact ⟨hc.1, List.any_eq_true.mp hc.2⟩
  · rw [if_neg hc]
    constructor
    · intro h
      exfalso
      revert h
      cases hpc : (preCalculationCheckS ratioAt c minRate ov).1 with
      | error e => simp
      | ok u => simp
    · rintro ⟨h1, h2⟩
      exact absurd ⟨h1, List.any_eq_true.mpr h2⟩ hc

/-! ## C2 — the optimizer's profit function is total over probes -/

theorem truncToInt_intCast (n : ℤ) : truncToInt (n : ℚ) = n := by
  rw [truncToInt]
  split
  · exact Int.floor_intCast n
  · exact Int.ceil_intCast n

/-- C2: for every probed input `x`, `arb_profit` truncates `x` to an
integer (probing at `x` equals probing at `↑(int(x))`), feeds each hop's
output to the next hop, and turns a caught `EVMRevertError` /
`LiquidityPoolError` from any hop into whole-cycle output `0` (so the
negated profit is then `int(x)` itself) instead of propagating the fault;
being a total Lean function, `arbProfit` is defined at every `x` in
`[1, max_input]` (and indeed everywhere). -/
theorem arbProfit_total_spec (hops : List (ℤ → Except SwapFault ℤ)) (x : ℚ) :
    (arbProfit hops x = arbProfit hops ((truncToInt x : ℤ) : ℚ)) ∧
    (∀ (hop : ℤ → Except SwapFault ℤ) (rest : List (ℤ → Except SwapFault ℤ)) (a o : ℤ),
      hop a = Except.ok o → runHopsFrom a (hop :: rest) = runHopsFrom o rest) ∧
    (∀ e : SwapFault, cycleTokenOut hops (truncToInt x) = Except.error e →
      arbProfit hops x = ((truncToInt x : ℤ) : ℚ)) ∧
    (∀ o : ℤ, cycleTokenOut hops (truncToInt x) = Except.ok o →
      arbProfit hops x = -(((o - truncToInt x : ℤ) : ℚ))) := by
  refine ⟨?_, ?_, ?_, ?_⟩
  · rw [arbProfit, arbProfit, truncToInt_intCast]
  · intro hop rest a o hok
    rw [runHopsFrom, hok]
  · intro e he
    rw [arbProfit, cycleOutRecovered, he]
    push_cast
    ring
  · intro o ho
    rw [arbProfit, cycleOutRecovered, ho]

/-- Witness for `arbProfit_total_spec`: one doubling hop probed at
`x = 7/2` is truncated to `3` and yields negated profit `-(6 − 3) = -3`. -/
theorem arbProfit_total_spec_witness :
    arbProfit [fun a => Except.ok (a * 2)] (7 / 2 : ℚ) = -3 := by
  have ht : truncToInt (7 / 2 : ℚ) = 3 := by
    rw [truncToInt, if_pos (by norm_num)]
    norm_num
  have h := (arbProfit_total_spec [fun a => Except.ok (a * 2)] (7 / 2)).2.2.2 6
    (by rw [ht]; rfl)
  rw [h, ht]
  norm_num

/-! ## C4 — the result's state block -/

theorem newestStateBlockAux_none (l : List PoolState) :
    ∀ acc : Option ℕ, (∃ s ∈ l, s.block = none) →
      newestStateBlockAux acc l = none := by
  induction l with
  | nil =>
    intro acc h
    obtain ⟨s, hs, _⟩ := h
    cases hs
  | cons s rest ih =>
    intro acc h
    rw [newestStateBlockAux]
    cases hb : s.block with
    | none => rfl
    | some b =>
      obtain ⟨t, ht, htn⟩ := h
      rcases List.mem_cons.mp ht with rfl | ht2
      · rw [hb] at htn; cases htn
      · exact ih _ ⟨t, ht2, htn⟩

theorem newestStateBlockAux_some (l : List PoolState) :
    ∀ a : ℕ, (∀ s ∈ l, s.block ≠ none) →
    ∃ m, newestStateBlockAux (some a) l = some m ∧
      (m = a ∨ ∃ s ∈ l, s.block = some m) ∧ a ≤ m ∧
      (∀ s ∈ l, ∀ b : ℕ, s.block = some b → b ≤ m) := by
  induction l with
  | nil =>
    intro a _
    exact ⟨a, rfl, Or.inl rfl, le_refl _,
      fun s hs => absurd hs (List.not_mem_nil s)⟩
  | cons s rest ih =>
    intro a h
    rw [newestStateBlockAux]
    cases hb : s.block with
    | none => exact absurd hb (h s (List.mem_cons_self _ _))
    | some b =>
      obtain ⟨m, hm, hmem, hle, hbound⟩ :=
        ih (max a b) (fun t ht => h t (List.mem_cons_of_mem _ ht))
      refine ⟨m, hm, ?_, le_trans (le_max_left _ _) hle, ?_⟩
      · rcases hmem with rfl | ⟨t, ht, htm⟩
        · rcases max_choice a b with h2 | h2
          · exact Or.inl h2
          · exact Or.inr ⟨s, List.mem_cons_self _ _, by rw [hb, h2]⟩
        · exact Or.inr ⟨t, List.mem_cons_of_mem _ ht, htm⟩
      · intro t ht b2 htb
        rcases List.mem_cons.mp ht with rfl | ht2
        · have hbb : b2 = b := by
            rw [hb] at htb
            exact (Option.some.inj htb).symm
          rw [hbb]
          exact le_trans (le_max_right _ _) hle
        · exact hbound t ht2 b2 htb

/-- C4: the `state_block` computed at the end of `_calculate` is `None`
whenever some contributing pool state lacks a block number, and otherwise
is `some m` where `m` is the block number of one of the contributing
states and an upper bound of all of them — i.e. their maximum. -/
theorem calculate_state_block_spec (states : List PoolState) :
    ((∃ s ∈ states, s.block = none) → newestStateBlock states = none) ∧
    (states ≠ [] → (∀ s ∈ states, s.block ≠ none) →
      ∃ m, newestStateBlock states = some m ∧
        (∃ s ∈ states, s.block = some m) ∧
        (∀ s ∈ states, ∀ b : ℕ, s.block = some b → b ≤ m)) := by
  constructor
  · intro h
    exact newestStateBlockAux_none states none h
  · intro hne h
    cases states with
    | nil => exact absurd rfl hne
    | cons s rest =>
      rw [newestStateBlock, newestStateBlockAux]
      cases hb : s.block with
      | none => exact absurd hb (h s (List.mem_cons_self _ _))
      | some b =>
        obtain ⟨m, hm, hmem, _, hbound⟩ :=
          newestStateBlockAux_some rest b (fun t ht => h t (List.mem_cons_of_mem _ ht))
        refine ⟨m, hm, ?_, ?_⟩
        · rcases hmem with rfl | ⟨t, ht, htm⟩
          · exact ⟨s, List.mem_cons_self _ _, hb⟩
          · exact ⟨t, List.mem_cons_of_mem _ ht, htm⟩
        · intro t ht b2 htb
          rcases List.mem_cons.mp ht with rfl | ht2
          · have hbb : b2 = b := by
              rw [hb] at htb
              exact (Option.some.inj htb).symm
            obtain ⟨m2, hm2, hmem2, hle2, _⟩ :=
              newestStateBlockAux_some rest b (fun u hu => h u (List.mem_cons_of_mem _ hu))
            rw [hm] at hm2
            rw [hbb]
            exact Option.some.inj hm2 ▸ hle2
          · exact hbound t ht2 b2 htb

/-- Witness for `calculate_state_block_spec`: two V2 states at blocks `5`
and `9` give a defined state block that is one of the contributing blocks
and bounds both, i.e. `9`. -/
theorem calculate_state_block_spec_witness :
    ∃ m, newestStateBlock
        [PoolState.v2 ⟨1, 1, some 5⟩, PoolState.v2 ⟨1, 1, some 9⟩] = some m ∧
      (∃ s ∈ [PoolState.v2 ⟨1, 1, some 5⟩, PoolState.v2 ⟨1, 1, some 9⟩],
        PoolState.block s = some m) ∧
      (∀ s ∈ [PoolState.v2 ⟨1, 1, some 5⟩, PoolState.v2 ⟨1, 1, some 9⟩],
        ∀ b : ℕ, PoolState.block s = some b → b ≤ m) :=
  (calculate_state_block_spec
    [PoolState.v2 ⟨1, 1, some 5⟩, PoolState.v2 ⟨1, 1, some 9⟩]).2
    (by decide) (by decide)

/-! ## C6 — payload generation drops the first hop's V2 swap call -/

/-- C6 (code bug evidence): on the two-hop all-V2 cycle `payloadCycle`
with `from_address = 7` and `swap_amount = 5`, `generate_payloads` emits
only two payloads — the leading token transfer into pool `10` and the swap
at pool `11` — with no swap call at pool `10` at all: the `case 0, V2, _`
arm of the `match` consumes the first iteration, so the first pool's swap
never gets encoded.  The claim (and the docstring's one-call-per-hop
promise) require three payloads here. -/
theorem generatePayloads_firstV2_swap_missing :
    generatePayloads 7 5 payloadCycle payloadAmounts =
      Except.ok [(99, CallData.transferCall 10 5, (0 : ℕ)),
        (11, CallData.v2SwapCall 8 0 7, (0 : ℕ))] ∧
    payloadCycle.hops.length = 2 := by
  constructor
  · rfl
  · rfl

/-! ## C8 — V3 path decoding -/

theorem decodeV3PathGo_true (rest : List ℕ) :
    decodeV3PathGo true rest =
      if rest.drop 20 = [] then [PathElem.addr ⟨rest.take 20⟩]
      else PathElem.addr ⟨rest.take 20⟩ :: decodeV3PathGo false (rest.drop 20) := by
  by_cases hc : rest.drop 20 = []
  · rw [decodeV3PathGo]
    simp [hc]
  · rw [decodeV3PathGo]
    simp [hc]

theorem decodeV3PathGo_false (rest : List ℕ) :
    decodeV3PathGo false rest =
      if rest.drop 3 = [] then [PathElem.fee (beBytesToNat (rest.take 3))]
      else PathElem.fee (beBytesToNat (rest.take 3)) :: decodeV3PathGo true (rest.drop 3) := by
  by_cases hc : rest.drop 3 = []
  · rw [decodeV3PathGo]
    simp [hc]
  · rw [decodeV3PathGo]
    simp [hc]

/-- C8: decoding a byte string made of two 20-byte addresses around one
3-byte fee yields `[address, fee, address]`, where the fee is the
big-endian unsigned-integer value of the 3-byte chunk and each address is
the checksummed form of its own 20-byte chunk. -/
theorem decodeV3Path_addr_fee_addr (a1 f a2 : List ℕ)
    (h1 : a1.length = 20) (h2 : f.length = 3) (h3 : a2.length = 20) :
    decodeV3Path (a1 ++ f ++ a2) =
      [PathElem.addr ⟨a1⟩, PathElem.fee (beBytesToNat f), PathElem.addr ⟨a2⟩] := by
  have ht1 : (a1 ++ (f ++ a2)).take 20 = a1 := by
    rw [← h1]
    exact List.take_left _ _
  have hd1 : (a1 ++ (f ++ a2)).drop 20 = f ++ a2 := by
    rw [← h1]
    exact List.drop_left _ _
  have ht2 : (f ++ a2).take 3 = f := by
    rw [← h2]
    exact List.take_left _ _
  have hd2 : (f ++ a2).drop 3 = a2 := by
    rw [← h2]
    exact List.drop_left _ _
  have ht3 : a2.take 20 = a2 := by
    rw [← h3]
    exact List.take_length a2
  have hd3 : a2.drop 20 = [] := by
    rw [← h3]
    exact List.drop_length a2
  have hne1 : f ++ a2 ≠ [] := by
    intro hh
    have := congrArg List.length hh
    simp [h2] at this
  have hne2 : a2 ≠ [] := by
    intro hh
    rw [hh] at h3
    simp at h3
  rw [decodeV3Path, List.append_assoc, decodeV3PathGo_true, hd1, ht1, if_neg hne1,
    decodeV3PathGo_false, hd2, ht2, if_neg hne2,
    decodeV3PathGo_true, hd3, ht3, if_pos rfl]

/-- Witness for `decodeV3Path_addr_fee_addr`: a concrete 43-byte path of
twenty `1`-bytes, fee bytes `[1, 2, 3]` (value `66051`), and twenty
`2`-bytes. -/
theorem decodeV3Path_addr_fee_addr_witness :
    decodeV3Path (List.replicate 20 1 ++ [1, 2, 3] ++ List.replicate 20 2) =
      [PathElem.addr ⟨List.replicate 20 1⟩, PathElem.fee 66051,
        PathElem.addr ⟨List.replicate 20 2⟩] := by
  have h := decodeV3Path_addr_fee_addr (List.replicate 20 1) [1, 2, 3]
    (List.replicate 20 2) rfl rfl rfl
  rw [h]
  rfl

/-! ## C9 — the Balancer calculator ignores its override state -/

/-- C9: two calls to `BalancerV2Pool.calculate_tokens_out_from_tokens_in`
agreeing on `token_in`, `token_in_quantity` and `token_out` return the
same result for any two `override_state` arguments (for every choice of
the library helpers): the computation reads only the pool's own balances,
fee, weights and scaling factors, never the override. -/
theorem balancer_calc_ignores_override (libs : BalancerLibs)
    (pool : BalancerV2PoolModel) (tokenIn : ℕ) (q : ℤ) (tokenOut : ℕ)
    (o1 o2 : Option BalancerStateModel) :
    calculateTokensOutFromTokensIn libs pool tokenIn q tokenOut o1 =
      calculateTokensOutFromTokensIn libs pool tokenIn q tokenOut o2 := rfl

end Degenbot
